import Mathlib

/-!
# Verification of `env-inventory` (`src/lib.rs`)

A shallow embedding of the environment-variable registration, loading,
resolution and validation logic of the `env-inventory` crate, together with
theorems settling the specification claims.

Modelling conventions:

* The process-wide declaration registry (`inventory::iter::<RequiredVar>`) is a
  `List RequiredVar` in registration/iteration order; `Iterator::last()`
  becomes `List.getLast?`.
* The live process environment (`std::env::var` / `std::env::set_var`) and the
  `HashMap<String, String>` settings maps are modelled as functions
  `String → Option String`; `HashMap::insert` and `env::set_var` become
  pointwise update.  The code never iterates over these maps, so the
  functional representation is exact.
* The file system plus the external `toml` parser (an external collaborator,
  per the crate: the parsing format is out of scope) are modelled as a
  function `String → FileContent`: a path is unreadable, unparsable, or
  parses to a top-level table of `Toml` values.
* The external `shellexpand::full` expander is likewise a parameter
  `Expander`: given the current environment lookup and a string it returns
  the expanded string or the error message of a failed lookup.
* `seen_vars` in `expanded_map` is a Rust `HashMap`; we model it as an
  association list in insertion order (its only uses are `contains_key`,
  `insert`, and an iteration whose order Rust leaves unspecified; we
  determinise that iteration to insertion order).
* Fallible functions return `Except EnvInventoryError`; since the Rust code
  mutates the global environment even on error paths, stateful operations
  return a pair of the result and the final environment.
-/

namespace EnvInventory

/-- Priority tiers of a compiled-in default (`enum Priority` in the source). -/
inductive Priority where
  | Unknown : Priority
  | Library : Priority
  | Binary : Priority
deriving DecidableEq

/-- A registered environment-variable declaration (`struct RequiredVar`). -/
structure RequiredVar where
  name : String
  default : Option String
  error : Option String
  source : String
  priority : Priority
deriving DecidableEq

/-- Error type of the crate (`enum EnvInventoryError`). -/
inductive EnvInventoryError where
  | ReadFileError : String → EnvInventoryError
  | ParseFileError : String → EnvInventoryError
  | MissingEnvVars : List String → EnvInventoryError
  | MissingEnvVar : String → EnvInventoryError
deriving DecidableEq

/-- The live environment: total map from names to optionally-set values. -/
abbrev EnvMap := String → Option String

/-- A flat settings map (`HashMap<String, String>` in the source). -/
abbrev SMap := String → Option String

/-- The external shell expander (`shellexpand::full`): takes the current
environment lookup and a value, returns the expanded value or the message of
a failed variable lookup. -/
abbrev Expander := EnvMap → String → Except String String

/-- The empty settings map / environment. -/
def emptySMap : SMap := fun _ => none

/-- `env::set_var` / `HashMap::insert`: pointwise update. -/
def setVar (m : EnvMap) (k v : String) : EnvMap :=
  fun k' => if k' = k then some v else m k'

/-- A parsed TOML value, as far as the source inspects it: a string, a table,
or anything else (`Value::as_str` / `Value::as_table` return `None`). -/
inductive Toml where
  | str : String → Toml
  | table : List (String × Toml) → Toml
  | other : Toml

/-- `Value::as_str`. -/
def Toml.as_str : Toml → Option String
  | .str s => some s
  | _ => none

/-- `Value::as_table`. -/
def Toml.as_table : Toml → Option (List (String × Toml))
  | .table t => some t
  | _ => none

/-- Result of `fs::read_to_string` followed by `content.parse::<toml::Value>()`
for one path: the file is unreadable, readable but not valid TOML, or parses
to a top-level table. -/
inductive FileContent where
  | unreadable : FileContent
  | unparsable : FileContent
  | parsed : List (String × Toml) → FileContent

/-- The file system together with the external TOML parser. -/
abbrev FileSys := String → FileContent

/-- `RequiredVar::is_set`: set in the environment, or has a default. -/
def RequiredVar.is_set (var : RequiredVar) (env : EnvMap) : Bool :=
  (env var.name).isSome || var.default.isSome

/-- `RequiredVar::get`: the environment value, falling back to the default. -/
def RequiredVar.get (var : RequiredVar) (env : EnvMap) : Option String :=
  match env var.name with
  | some value => some value
  | none => var.default

/-- The per-declaration message built by `validate_env_vars`:
`format!("{}={}", name, error-or-"(missing)")`. -/
def missingMsg (var : RequiredVar) : String :=
  var.name ++ "=" ++ var.error.getD "(missing)"

/-- Sort a list of strings lexicographically (Rust `Vec::sort`).  Since `≤` on
`String` is a total and antisymmetric order, the sorted permutation is unique,
so insertion sort denotes the same list as Rust's merge sort. -/
def sortStr (l : List String) : List String :=
  l.insertionSort (· ≤ ·)

/-- `validate_env_vars`: collect the messages of unsatisfied declarations into
a set (here: `dedup`), sort them, and fail if any remain. -/
def validate_env_vars (reg : List RequiredVar) (env : EnvMap) :
    Except EnvInventoryError Unit :=
  let missing := sortStr ((reg.filterMap fun var =>
    if var.is_set env then none else some (missingMsg var)).dedup)
  if missing.isEmpty then .ok () else .error (.MissingEnvVars missing)

/-- The `Debug` rendering of an `Option<&str>` (`{:?}`). -/
def fmtOptStr : Option String → String
  | none => "None"
  | some s => "Some(" ++ "\"" ++ s ++ "\"" ++ ")"

/-- The derived `Debug` rendering of a `Priority` (`{:?}`). -/
def fmtPriority : Priority → String
  | .Unknown => "Unknown"
  | .Library => "Library"
  | .Binary => "Binary"

/-- The manual `Debug`/`Display` rendering of a `RequiredVar` (the `write!`
in `impl Debug for RequiredVar`; the `#` flag is ignored by the manual
implementation).  Exact for strings containing no characters that Rust's
string `Debug` would escape, which is the case for every input considered
here. -/
def RequiredVar.debugFmt (var : RequiredVar) : String :=
  "RequiredVar \x7b name: " ++ var.name ++ ", default: " ++ fmtOptStr var.default ++
    ", error: " ++ fmtOptStr var.error ++ ", source: " ++ var.source ++
    ", priority: " ++ fmtPriority var.priority ++ " \x7d"

/-- `list_all_vars`: the sorted `Debug` renderings of all declarations. -/
def list_all_vars (reg : List RequiredVar) : List String :=
  sortStr (reg.map RequiredVar.debugFmt)

/-- `load_toml_settings`: read and parse one file, extract the string-valued
entries of the named section. -/
def load_toml_settings (fsys : FileSys) (path : String) (sect : String) :
    Except EnvInventoryError SMap :=
  match fsys path with
  | .unreadable => .error (.ReadFileError path)
  | .unparsable => .error (.ParseFileError path)
  | .parsed doc =>
    let env_section := (doc.lookup sect).bind Toml.as_table
    match env_section with
    | none => .ok emptySMap
    | some env_table =>
      .ok (env_table.foldl (fun settings kv =>
        match kv.2.as_str with
        | some val_str => setVar settings kv.1 val_str
        | none => settings) emptySMap)

/-- One merge step of `load_and_validate_env_vars`: insert every entry of the
newly loaded settings into the accumulator (later keys overwrite). -/
def overrideMap (acc s : SMap) : SMap :=
  fun k => match s k with
  | some v => some v
  | none => acc k

/-- The merge loop of `load_and_validate_env_vars` over the non-mandatory
paths: a load failure is only warned about and the path is skipped. -/
def mergeSettingsAux (fsys : FileSys) (sect : String) :
    List String → SMap → SMap
  | [], acc => acc
  | p :: rest, acc =>
    match load_toml_settings fsys p sect with
    | .ok s => mergeSettingsAux fsys sect rest (overrideMap acc s)
    | .error _ => mergeSettingsAux fsys sect rest acc

/-- The whole merge loop of `load_and_validate_env_vars` (`index == 0` is
mandatory: its error aborts; subsequent paths are optional). -/
def mergeSettings (fsys : FileSys) (sect : String) :
    List String → Except EnvInventoryError SMap
  | [] => .ok emptySMap
  | p :: rest =>
    match load_toml_settings fsys p sect with
    | .error e => .error e
    | .ok s => .ok (mergeSettingsAux fsys sect rest (overrideMap emptySMap s))

/-- Step 3 / step 4 of the resolution loop: the default carried by the
last-registered declaration of the given priority for the name
(`inventory::iter().filter(..).last().and_then(|v| v.default)`). -/
def lastPriorityDefault (reg : List RequiredVar) (n : String) (p : Priority) :
    Option String :=
  ((reg.filter fun v => v.name = n ∧ v.priority = p).getLast?).bind RequiredVar.default

/-- The value the resolution loop would write for a name not set in the
environment: merged settings first, then the last Binary declaration's
default, then the last Library declaration's default. -/
def resolveStepValue (reg : List RequiredVar) (merged : SMap) (n : String) :
    Option String :=
  match merged n with
  | some v => some v
  | none =>
    match lastPriorityDefault reg n .Binary with
    | some d => some d
    | none => lastPriorityDefault reg n .Library

/-- The resolution loop of `load_and_validate_env_vars` (`for var in
inventory::iter`): `reg` is the full registry consulted by the inner
queries, the last argument list is the iteration remainder. -/
def resolveLoop (reg : List RequiredVar) (merged : SMap) :
    List RequiredVar → EnvMap → EnvMap
  | [], env => env
  | var :: rest, env =>
    let env' :=
      if (env var.name).isSome then env
      else
        match merged var.name with
        | some value => setVar env var.name value
        | none =>
          match lastPriorityDefault reg var.name .Binary with
          | some d => setVar env var.name d
          | none =>
            match lastPriorityDefault reg var.name .Library with
            | some d => setVar env var.name d
            | none => env
    resolveLoop reg merged rest env'

/-- First loop of `expanded_map`: for each declaration not yet seen whose
`get()` yields a value, expand it and write it back (`env::set_var`),
recording it in `seen_vars`.  An expansion failure aborts with
`MissingEnvVar`. -/
def expandedMapLoop1 (expand : Expander) :
    List RequiredVar → List (String × String) → EnvMap →
    (Except EnvInventoryError (List (String × String))) × EnvMap
  | [], seen, env => (.ok seen, env)
  | var :: rest, seen, env =>
    if (seen.lookup var.name).isSome then
      expandedMapLoop1 expand rest seen env
    else
      match var.get env with
      | none => expandedMapLoop1 expand rest seen env
      | some value =>
        match expand env value with
        | .error e => (.error (.MissingEnvVar e), env)
        | .ok value2 =>
          expandedMapLoop1 expand rest (seen ++ [(var.name, value2)])
            (setVar env var.name value2)

/-- Second loop of `expanded_map`: re-expand every recorded value against the
current environment and write it back. -/
def expandedMapLoop2 (expand : Expander) :
    List (String × String) → EnvMap →
    (Except EnvInventoryError Unit) × EnvMap
  | [], env => (.ok (), env)
  | (k, v) :: rest, env =>
    match expand env v with
    | .error e => (.error (.MissingEnvVar e), env)
    | .ok v2 => expandedMapLoop2 expand rest (setVar env k v2)

/-- `expanded_map`: both loops in sequence. -/
def expanded_map (expand : Expander) (reg : List RequiredVar) (env : EnvMap) :
    (Except EnvInventoryError (List (String × String))) × EnvMap :=
  match expandedMapLoop1 expand reg [] env with
  | (.error e, env1) => (.error e, env1)
  | (.ok seen, env1) =>
    match expandedMapLoop2 expand seen env1 with
    | (.error e, env2) => (.error e, env2)
    | (.ok _, env2) => (.ok seen, env2)

/-- `load_and_validate_env_vars`: merge the settings files (first path
mandatory), resolve every registered variable into the environment, shell
expand, then validate. -/
def load_and_validate_env_vars (fsys : FileSys) (expand : Expander)
    (reg : List RequiredVar) (paths : List String) (sect : String)
    (env : EnvMap) : (Except EnvInventoryError Unit) × EnvMap :=
  match mergeSettings fsys sect paths with
  | .error e => (.error e, env)
  | .ok merged =>
    let env1 := resolveLoop reg merged reg env
    match expanded_map expand reg env1 with
    | (.error e, env2) => (.error e, env2)
    | (.ok _, env2) => (validate_env_vars reg env2, env2)

/-- `validate_env_vars` viewed as a stateful call: the source contains no
environment write, so the call returns the environment unchanged. -/
def validate_env_vars_run (reg : List RequiredVar) (env : EnvMap) :
    (Except EnvInventoryError Unit) × EnvMap :=
  (validate_env_vars reg env, env)

/-! ## Claim-side definitions

These two definitions follow the words of the specification claims (not the
source); they exist only to be compared with the source-derived definitions
above. -/

/-- Claim C1's resolution rule, following the spec's words: the environment
wins; then the merged settings; then the default of the declaration
*registered last among those with priority Binary and a non-empty default*;
then likewise for Library; otherwise unset. -/
def claimResolvedValue (reg : List RequiredVar) (merged : SMap) (env : EnvMap)
    (n : String) : Option String :=
  match env n with
  | some v => some v
  | none =>
    match merged n with
    | some v => some v
    | none =>
      match ((reg.filter fun v =>
          v.name = n ∧ v.priority = .Binary ∧ v.default.isSome).getLast?).bind
          RequiredVar.default with
      | some d => some d
      | none =>
        ((reg.filter fun v =>
          v.name = n ∧ v.priority = .Library ∧ v.default.isSome).getLast?).bind
          RequiredVar.default

/-- Claim C3's validator, following the spec's words: a *distinct name* is
satisfied when the environment holds a value for it or *some* declaration for
it has a default; the failure report lists each unsatisfied name once, paired
with the error hint of some declaration for that name (here: the first
declaration carrying one) or `"(missing)"`. -/
def claimValidate (reg : List RequiredVar) (env : EnvMap) :
    Except EnvInventoryError Unit :=
  let names := (reg.map RequiredVar.name).dedup
  let unsat := names.filter fun n =>
    !((env n).isSome || reg.any fun v => v.name == n && v.default.isSome)
  let report := sortStr (unsat.map fun n =>
    n ++ "=" ++ (((reg.filter fun v =>
      v.name == n && v.error.isSome).head?).bind RequiredVar.error).getD "(missing)")
  if report.isEmpty then .ok () else .error (.MissingEnvVars report)

/-- The value the merge loop assigns to a key: the entry of the last
successfully loaded document in the list that defines it. -/
def lastWinsLookup (fsys : FileSys) (sect : String) :
    List String → String → Option String
  | [], _ => none
  | p :: rest, k =>
    match lastWinsLookup fsys sect rest k with
    | some v => some v
    | none =>
      match load_toml_settings fsys p sect with
      | .ok s => s k
      | .error _ => none

/-- The string entry a TOML table assigns to a key (the last entry wins,
matching the insertion fold). -/
def tableStrLookup : List (String × Toml) → String → Option String
  | [], _ => none
  | kv :: rest, k =>
    match tableStrLookup rest k with
    | some s => some s
    | none =>
      match kv.2.as_str with
      | some s => if kv.1 = k then some s else none
      | none => none

/-! ## Concrete instances used by witnesses and counterexamples -/

/-- The empty environment. -/
def emptyEnv : EnvMap := fun _ => none

/-- An expander that leaves every value unchanged (the behaviour of
`shellexpand::full` on strings without expansion syntax). -/
def idExpand : Expander := fun _ s => .ok s

/-- A file system on which every read fails. -/
def noFile : FileSys := fun _ => .unreadable

/-- C1 counterexample registry: two Binary declarations for `X`; the earlier
one carries a default, the later one does not. -/
def c1Reg : List RequiredVar :=
  [⟨"X", some "a", none, "s1", .Binary⟩, ⟨"X", none, none, "s2", .Binary⟩]

/-- C1 witness registry: the spec scenario `register("X","lib",Library)` then
`register("X","bin",Binary)`. -/
def c1RegW : List RequiredVar :=
  [⟨"X", some "lib", none, "l", .Library⟩, ⟨"X", some "bin", none, "b", .Binary⟩]

/-- C2 witness registry: the spec scenario `register("PORT","8080",Library)`. -/
def c2Reg : List RequiredVar := [⟨"PORT", some "8080", none, "s", .Library⟩]

/-- C3 counterexample registry: two declarations for `X`; only the later one
carries a default. -/
def c3Reg : List RequiredVar :=
  [⟨"X", none, none, "a", .Library⟩, ⟨"X", some "d", none, "b", .Library⟩]

/-- C3 witness registry: one satisfied declaration. -/
def c3RegW : List RequiredVar := [⟨"A", some "1", none, "s", .Library⟩]

/-- C5 file system: two readable documents `A` and `B`, both defining `KEY`
in the `env` section. -/
def c5Fs : FileSys := fun q =>
  if q = "A" then .parsed [("env", .table [("KEY", .str "a")])]
  else if q = "B" then .parsed [("env", .table [("KEY", .str "b")])]
  else .unreadable

/-- The merged settings of the C5 witness run. -/
def c5Merged : SMap :=
  match mergeSettings c5Fs "env" ["A", "B"] with
  | .ok m => m
  | .error _ => emptySMap

/-- The settings loaded from document `B` in the C5 witness run. -/
def c5DocB : SMap :=
  match load_toml_settings c5Fs "B" "env" with
  | .ok s => s
  | .error _ => emptySMap

/-- C6 counterexample registry: one declaration for `X`. -/
def c6Reg : List RequiredVar := [⟨"X", none, none, "s", .Library⟩]

/-- The behaviour of the external expander `shellexpand::full` on the inputs
of the C6 counterexample: a whole-string `${Y}` reference is replaced by the
environment value of `Y`, everything else is left alone. -/
def c6Expand : Expander := fun env s =>
  if s = "${Y}" then
    match env "Y" with
    | some v => .ok v
    | none => .error "Y"
  else .ok s

/-- C6 counterexample environment: `X` pre-set to a value containing
expansion syntax, `Y` set to a plain value. -/
def c6Env : EnvMap := fun n =>
  if n = "X" then some "${Y}" else if n = "Y" then some "z" else none

/-- C6 witness file system: one document defining `KEY` in the `env`
section (the spec scenario). -/
def c6FsW : FileSys := fun q =>
  if q = "D" then .parsed [("env", .table [("KEY", .str "doc-value")])]
  else .unreadable

/-- C6 witness environment: `KEY` pre-set to a plain value. -/
def c6EnvW : EnvMap := fun n => if n = "KEY" then some "env-value" else none

/-- C6 witness registry: one declaration for `KEY`. -/
def c6RegW : List RequiredVar := [⟨"KEY", none, none, "s", .Library⟩]

/-- C8 witness registry: one declaration for `X`. -/
def c8Reg : List RequiredVar := [⟨"X", none, none, "s", .Library⟩]

/-- C8 witness environment: `X` pre-set to a value referencing the undefined
variable `Z`. -/
def c8Env : EnvMap := fun n => if n = "X" then some "${Z}" else none

/-- The behaviour of `shellexpand::full` on the C8 witness inputs: a
whole-string `${Z}` reference fails when `Z` is undefined. -/
def c8Expand : Expander := fun env s =>
  if s = "${Z}" then
    match env "Z" with
    | some v => .ok v
    | none => .error "Z"
  else .ok s

/-- The environment state at which the C8 witness run aborts. -/
def c8EnvMid : EnvMap :=
  (expanded_map c8Expand c8Reg (resolveLoop c8Reg emptySMap c8Reg c8Env)).2

/-- C9 registry: one declaration for `X`. -/
def c9Reg : List RequiredVar := [⟨"X", none, none, "s", .Library⟩]

/-- C4 witness file system: the path `bad` is unreadable. -/
def c4Fs : FileSys := fun q =>
  if q = "good" then .parsed [] else .unreadable

/-! ## Helper lemmas -/

@[simp] theorem setVar_same (m : EnvMap) (k v : String) : setVar m k v k = some v := by
  simp [setVar]

theorem setVar_other (m : EnvMap) (k v k' : String) (h : k' ≠ k) :
    setVar m k v k' = m k' := by
  simp [setVar, h]

/-- Unfolding lemma: one step of the resolution loop. -/
theorem resolveLoop_cons (reg : List RequiredVar) (merged : SMap)
    (var : RequiredVar) (rest : List RequiredVar) (env : EnvMap) :
    resolveLoop reg merged (var :: rest) env =
      resolveLoop reg merged rest
        (if (env var.name).isSome then env
         else match merged var.name with
          | some value => setVar env var.name value
          | none =>
            match lastPriorityDefault reg var.name .Binary with
            | some d => setVar env var.name d
            | none =>
              match lastPriorityDefault reg var.name .Library with
              | some d => setVar env var.name d
              | none => env) := rfl

/-- Pointwise characterisation of the resolution loop: a name set in the
environment is never touched; a declared name not set in the environment
receives the step value (merged settings, then last Binary declaration's
default, then last Library declaration's default); an undeclared name is
untouched. -/
theorem resolveLoop_lookup (reg : List RequiredVar) (merged : SMap) :
    ∀ (l : List RequiredVar) (env : EnvMap) (n : String),
      resolveLoop reg merged l env n =
        match env n with
        | some v => some v
        | none =>
          if l.any (fun v => v.name == n) then resolveStepValue reg merged n
          else none := by
  intro l
  induction l with
  | nil =>
    intro env n
    cases henv : env n <;> simp [resolveLoop, henv]
  | cons var rest ih =>
    intro env n
    rw [resolveLoop_cons, ih]
    by_cases hn : var.name = n
    · subst hn
      cases henv : env var.name with
      | some v => simp [henv]
      | none =>
        simp only [henv, Option.isSome_none, Bool.false_eq_true, if_false]
        cases hm : merged var.name with
        | some v => simp [resolveStepValue, hm]
        | none =>
          cases hb : lastPriorityDefault reg var.name .Binary with
          | some d => simp [resolveStepValue, hm, hb]
          | none =>
            cases hl : lastPriorityDefault reg var.name .Library with
            | some d => simp [resolveStepValue, hm, hb, hl]
            | none => simp [henv, resolveStepValue, hm, hb, hl]
    · have hn2 : n ≠ var.name := fun h => hn h.symm
      have hne : (var.name == n) = false := by
        simpa using hn
      have hpt : (if (env var.name).isSome then env
             else match merged var.name with
              | some value => setVar env var.name value
              | none =>
                match lastPriorityDefault reg var.name .Binary with
                | some d => setVar env var.name d
                | none =>
                  match lastPriorityDefault reg var.name .Library with
                  | some d => setVar env var.name d
                  | none => env) n = env n := by
        by_cases hset : (env var.name).isSome
        · simp [hset]
        · simp only [hset, if_false]
          cases merged var.name with
          | some value => exact setVar_other env var.name value n hn2
          | none =>
            cases lastPriorityDefault reg var.name .Binary with
            | some d => exact setVar_other env var.name d n hn2
            | none =>
              cases lastPriorityDefault reg var.name .Library with
              | some d => exact setVar_other env var.name d n hn2
              | none => rfl
      rw [hpt]
      cases env n <;> simp [List.any_cons, hne]

@[simp] theorem setVar_mono (env : EnvMap) (k v n : String)
    (h : (env n).isSome) : ((setVar env k v) n).isSome := by
  by_cases hnk : n = k <;> simp [setVar, hnk, h]

/-- Pointwise characterisation of the optional-path merge loop: the last
successfully loaded document defining a key wins; otherwise the accumulator
is consulted. -/
theorem mergeSettingsAux_lookup (fsys : FileSys) (sect : String) :
    ∀ (l : List String) (acc : SMap) (k : String),
      mergeSettingsAux fsys sect l acc k =
        match lastWinsLookup fsys sect l k with
        | some v => some v
        | none => acc k := by
  intro l
  induction l with
  | nil => intro acc k; rfl
  | cons p rest ih =>
    intro acc k
    cases hp : load_toml_settings fsys p sect with
    | ok s =>
      rw [mergeSettingsAux, hp, lastWinsLookup]
      show mergeSettingsAux fsys sect rest (overrideMap acc s) k = _
      rw [ih]
      cases lastWinsLookup fsys sect rest k with
      | some v => rfl
      | none => rw [hp]; rfl
    | error e =>
      rw [mergeSettingsAux, hp, lastWinsLookup]
      show mergeSettingsAux fsys sect rest acc k = _
      rw [ih]
      cases lastWinsLookup fsys sect rest k with
      | some v => rfl
      | none => rw [hp]

/-- `lastWinsLookup` over an appended path list: the later block wins. -/
theorem lastWinsLookup_append (fsys : FileSys) (sect : String) :
    ∀ (a b : List String) (k : String),
      lastWinsLookup fsys sect (a ++ b) k =
        match lastWinsLookup fsys sect b k with
        | some v => some v
        | none => lastWinsLookup fsys sect a k := by
  intro a
  induction a with
  | nil =>
    intro b k
    rw [List.nil_append]
    cases lastWinsLookup fsys sect b k <;> rfl
  | cons p rest ih =>
    intro b k
    rw [List.cons_append, lastWinsLookup, ih, lastWinsLookup]
    cases lastWinsLookup fsys sect b k with
    | some v => rfl
    | none => cases lastWinsLookup fsys sect rest k <;> rfl

/-- Pointwise characterisation of the table-insertion fold of
`load_toml_settings`. -/
theorem tomlFold_lookup :
    ∀ (tbl : List (String × Toml)) (m0 : SMap) (k : String),
      (tbl.foldl (fun settings kv =>
        match kv.2.as_str with
        | some val_str => setVar settings kv.1 val_str
        | none => settings) m0) k =
      match tableStrLookup tbl k with
      | some s => some s
      | none => m0 k := by
  intro tbl
  induction tbl with
  | nil => intro m0 k; rfl
  | cons kv rest ih =>
    intro m0 k
    rw [List.foldl_cons, ih, tableStrLookup]
    cases hs : tableStrLookup rest k with
    | some s => rfl
    | none =>
      cases ha : kv.2.as_str with
      | some s =>
        by_cases hk : kv.1 = k
        · subst hk; simp [setVar]
        · have hk2 : k ≠ kv.1 := fun h => hk h.symm
          simp [setVar, hk2, hk]
      | none => rfl

/-- `sortStr` is a permutation of its input. -/
theorem sortStr_perm (l : List String) : List.Perm (sortStr l) l :=
  List.perm_insertionSort _ l

/-- `sortStr` sorts. -/
theorem sortStr_sorted (l : List String) : (sortStr l).Sorted (· ≤ ·) :=
  List.sorted_insertionSort _ l

theorem sortStr_eq_nil_iff (l : List String) : sortStr l = [] ↔ l = [] := by
  constructor
  · intro h
    have hp := sortStr_perm l
    rw [h] at hp
    exact (hp.symm.eq_nil)
  · intro h
    rw [h]; rfl

/-- `validate_env_vars` succeeds exactly when every declaration is satisfied
(its name set in the environment, or carrying its own default). -/
theorem validate_ok_iff (reg : List RequiredVar) (env : EnvMap) :
    validate_env_vars reg env = .ok () ↔
      ∀ var ∈ reg, var.is_set env = true := by
  have hbase : ((reg.filterMap fun var =>
      if var.is_set env then none else some (missingMsg var)) = []) ↔
      ∀ var ∈ reg, var.is_set env = true := by
    rw [List.filterMap_eq_nil_iff]
    constructor
    · intro h var hv
      by_contra hns
      have := h var hv
      simp [hns] at this
    · intro h var hv
      simp [h var hv]
  simp only [validate_env_vars]
  by_cases hmt : (sortStr ((reg.filterMap fun var =>
      if var.is_set env then none else some (missingMsg var)).dedup)).isEmpty
  · rw [if_pos hmt]
    have h1 : (reg.filterMap fun var =>
        if var.is_set env then none else some (missingMsg var)) = [] := by
      have h2 := List.isEmpty_iff.mp hmt
      rw [sortStr_eq_nil_iff] at h2
      exact (List.dedup_eq_nil _).mp h2
    constructor
    · intro _
      exact hbase.mp h1
    · intro _
      rfl
  · rw [if_neg hmt]
    constructor
    · intro h
      exact absurd h (by simp)
    · intro hall
      exfalso
      apply hmt
      have h1 := hbase.mpr hall
      rw [h1]
      rfl

/-- The failure report of `validate_env_vars` is exactly the sorted
deduplication of the per-declaration messages of unsatisfied declarations. -/
theorem validate_error_eq (reg : List RequiredVar) (env : EnvMap)
    (msgs : List String)
    (h : validate_env_vars reg env = .error (.MissingEnvVars msgs)) :
    msgs = sortStr ((reg.filterMap fun var =>
      if var.is_set env then none else some (missingMsg var)).dedup) := by
  simp only [validate_env_vars] at h
  by_cases hmt : (sortStr ((reg.filterMap fun var =>
      if var.is_set env then none else some (missingMsg var)).dedup)).isEmpty
  · rw [if_pos hmt] at h
    cases h
  · rw [if_neg hmt] at h
    injection h with h1
    injection h1 with h2
    exact h2.symm

/-- A declaration whose `get` is empty carries no default. -/
theorem RequiredVar.get_none {var : RequiredVar} {env : EnvMap}
    (h : var.get env = none) : var.default = none := by
  unfold RequiredVar.get at h
  cases he : env var.name with
  | some u => rw [he] at h; cases h
  | none => rw [he] at h; exact h

/-- A successful association-list lookup comes from a member pair. -/
theorem lookup_isSome_exists_mem {β : Type} :
    ∀ (l : List (String × β)) (k : String),
      (List.lookup k l).isSome = true → ∃ w, (k, w) ∈ l := by
  intro l
  induction l with
  | nil => intro k h; simp [List.lookup] at h
  | cons p rest ih =>
    obtain ⟨k1, w1⟩ := p
    intro k h
    by_cases hk : k = k1
    · subst hk
      exact ⟨w1, List.mem_cons_self _ _⟩
    · have hk' : (k == k1) = false := by simpa using hk
      simp only [List.lookup, hk'] at h
      obtain ⟨w, hw⟩ := ih k h
      exact ⟨w, List.mem_cons_of_mem _ hw⟩

/-- Unfolding: the head declaration was already recorded. -/
theorem expandedMapLoop1_cons_seen (expand : Expander) (var : RequiredVar)
    (rest : List RequiredVar) (seen : List (String × String)) (env : EnvMap)
    (h1 : (List.lookup var.name seen).isSome = true) :
    expandedMapLoop1 expand (var :: rest) seen env =
      expandedMapLoop1 expand rest seen env := by
  rw [expandedMapLoop1, if_pos h1]

/-- Unfolding: the head declaration has no value at all. -/
theorem expandedMapLoop1_cons_skip (expand : Expander) (var : RequiredVar)
    (rest : List RequiredVar) (seen : List (String × String)) (env : EnvMap)
    (h1 : ¬(List.lookup var.name seen).isSome = true)
    (h2 : var.get env = none) :
    expandedMapLoop1 expand (var :: rest) seen env =
      expandedMapLoop1 expand rest seen env := by
  rw [expandedMapLoop1, if_neg h1]
  simp only [h2]

/-- Unfolding: the head declaration's value fails to expand. -/
theorem expandedMapLoop1_cons_err (expand : Expander) (var : RequiredVar)
    (rest : List RequiredVar) (seen : List (String × String)) (env : EnvMap)
    (value e : String)
    (h1 : ¬(List.lookup var.name seen).isSome = true)
    (h2 : var.get env = some value)
    (h3 : expand env value = .error e) :
    expandedMapLoop1 expand (var :: rest) seen env =
      (.error (.MissingEnvVar e), env) := by
  rw [expandedMapLoop1, if_neg h1]
  simp only [h2, h3]

/-- Unfolding: the head declaration's value expands; it is recorded and
written back. -/
theorem expandedMapLoop1_cons_ok (expand : Expander) (var : RequiredVar)
    (rest : List RequiredVar) (seen : List (String × String)) (env : EnvMap)
    (value value2 : String)
    (h1 : ¬(List.lookup var.name seen).isSome = true)
    (h2 : var.get env = some value)
    (h3 : expand env value = .ok value2) :
    expandedMapLoop1 expand (var :: rest) seen env =
      expandedMapLoop1 expand rest (seen ++ [(var.name, value2)])
        (setVar env var.name value2) := by
  rw [expandedMapLoop1, if_neg h1]
  simp only [h2, h3]

/-- Unfolding: the head recorded value fails to re-expand. -/
theorem expandedMapLoop2_cons_err (expand : Expander) (k v : String)
    (rest : List (String × String)) (env : EnvMap) (e : String)
    (h : expand env v = .error e) :
    expandedMapLoop2 expand ((k, v) :: rest) env =
      (.error (.MissingEnvVar e), env) := by
  rw [expandedMapLoop2]
  simp only [h]

/-- Unfolding: the head recorded value re-expands and is written back. -/
theorem expandedMapLoop2_cons_ok (expand : Expander) (k v v2 : String)
    (rest : List (String × String)) (env : EnvMap)
    (h : expand env v = .ok v2) :
    expandedMapLoop2 expand ((k, v) :: rest) env =
      expandedMapLoop2 expand rest (setVar env k v2) := by
  rw [expandedMapLoop2]
  simp only [h]

/-- The first expansion loop never unsets a set name. -/
theorem expandedMapLoop1_mono (expand : Expander) :
    ∀ (l : List RequiredVar) (seen : List (String × String)) (env : EnvMap)
      (n : String), (env n).isSome = true →
      (((expandedMapLoop1 expand l seen env).2) n).isSome = true := by
  intro l
  induction l with
  | nil => intro seen env n h; exact h
  | cons var rest ih =>
    intro seen env n h
    by_cases hseen : (List.lookup var.name seen).isSome = true
    · rw [expandedMapLoop1_cons_seen expand var rest seen env hseen]
      exact ih _ _ _ h
    · cases hg : var.get env with
      | none =>
        rw [expandedMapLoop1_cons_skip expand var rest seen env hseen hg]
        exact ih _ _ _ h
      | some value =>
        cases hex : expand env value with
        | error e =>
          rw [expandedMapLoop1_cons_err expand var rest seen env value e hseen hg hex]
          exact h
        | ok value2 =>
          rw [expandedMapLoop1_cons_ok expand var rest seen env value value2 hseen hg hex]
          exact ih _ _ _ (setVar_mono _ _ _ _ h)

/-- The second expansion loop never unsets a set name. -/
theorem expandedMapLoop2_mono (expand : Expander) :
    ∀ (seen : List (String × String)) (env : EnvMap) (n : String),
      (env n).isSome = true →
      (((expandedMapLoop2 expand seen env).2) n).isSome = true := by
  intro seen
  induction seen with
  | nil => intro env n h; exact h
  | cons p rest ih =>
    obtain ⟨k, v⟩ := p
    intro env n h
    cases hex : expand env v with
    | error e =>
      rw [expandedMapLoop2_cons_err expand k v rest env e hex]
      exact h
    | ok v2 =>
      rw [expandedMapLoop2_cons_ok expand k v v2 rest env hex]
      exact ih _ _ (setVar_mono _ _ _ _ h)

/-- Any error produced by the first expansion loop is a `MissingEnvVar`. -/
theorem expandedMapLoop1_error_shape (expand : Expander) :
    ∀ (l : List RequiredVar) (seen : List (String × String)) (env : EnvMap)
      (e : EnvInventoryError) (env' : EnvMap),
      expandedMapLoop1 expand l seen env = (.error e, env') →
      ∃ msg, e = .MissingEnvVar msg := by
  intro l
  induction l with
  | nil =>
    intro seen env e env' h
    simp [expandedMapLoop1] at h
  | cons var rest ih =>
    intro seen env e env' h
    by_cases hseen : (List.lookup var.name seen).isSome = true
    · rw [expandedMapLoop1_cons_seen expand var rest seen env hseen] at h
      exact ih _ _ _ _ h
    · cases hg : var.get env with
      | none =>
        rw [expandedMapLoop1_cons_skip expand var rest seen env hseen hg] at h
        exact ih _ _ _ _ h
      | some value =>
        cases hex : expand env value with
        | error e0 =>
          rw [expandedMapLoop1_cons_err expand var rest seen env value e0 hseen hg hex] at h
          have h1 := congrArg Prod.fst h
          simp at h1
          exact ⟨e0, h1.symm⟩
        | ok value2 =>
          rw [expandedMapLoop1_cons_ok expand var rest seen env value value2 hseen hg hex] at h
          exact ih _ _ _ _ h

/-- Any error produced by the second expansion loop is a `MissingEnvVar`. -/
theorem expandedMapLoop2_error_shape (expand : Expander) :
    ∀ (seen : List (String × String)) (env : EnvMap)
      (e : EnvInventoryError) (env' : EnvMap),
      expandedMapLoop2 expand seen env = (.error e, env') →
      ∃ msg, e = .MissingEnvVar msg := by
  intro seen
  induction seen with
  | nil =>
    intro env e env' h
    simp [expandedMapLoop2] at h
  | cons p rest ih =>
    obtain ⟨k, v⟩ := p
    intro env e env' h
    cases hex : expand env v with
    | error e0 =>
      rw [expandedMapLoop2_cons_err expand k v rest env e0 hex] at h
      have h1 := congrArg Prod.fst h
      simp at h1
      exact ⟨e0, h1.symm⟩
    | ok v2 =>
      rw [expandedMapLoop2_cons_ok expand k v v2 rest env hex] at h
      exact ih _ _ _ h

/-- Unfolding: the first expansion loop failed. -/
theorem expanded_map_unfold_err1 (expand : Expander) (reg : List RequiredVar)
    (env : EnvMap) (e : EnvInventoryError) (env1 : EnvMap)
    (h : expandedMapLoop1 expand reg [] env = (.error e, env1)) :
    expanded_map expand reg env = (.error e, env1) := by
  unfold expanded_map
  simp only [h]

/-- Unfolding: the second expansion loop failed. -/
theorem expanded_map_unfold_err2 (expand : Expander) (reg : List RequiredVar)
    (env : EnvMap) (seen : List (String × String)) (env1 : EnvMap)
    (e : EnvInventoryError) (env2 : EnvMap)
    (h1 : expandedMapLoop1 expand reg [] env = (.ok seen, env1))
    (h2 : expandedMapLoop2 expand seen env1 = (.error e, env2)) :
    expanded_map expand reg env = (.error e, env2) := by
  unfold expanded_map
  simp only [h1, h2]

/-- Unfolding: both expansion loops succeeded. -/
theorem expanded_map_unfold_ok (expand : Expander) (reg : List RequiredVar)
    (env : EnvMap) (seen : List (String × String)) (env1 : EnvMap)
    (u : Unit) (env2 : EnvMap)
    (h1 : expandedMapLoop1 expand reg [] env = (.ok seen, env1))
    (h2 : expandedMapLoop2 expand seen env1 = (.ok u, env2)) :
    expanded_map expand reg env = (.ok seen, env2) := by
  unfold expanded_map
  simp only [h1, h2]

/-- Any error produced by `expanded_map` is a `MissingEnvVar`. -/
theorem expanded_map_error_shape (expand : Expander) (reg : List RequiredVar)
    (env : EnvMap) (e : EnvInventoryError) (env' : EnvMap)
    (h : expanded_map expand reg env = (.error e, env')) :
    ∃ msg, e = .MissingEnvVar msg := by
  unfold expanded_map at h
  cases h1 : expandedMapLoop1 expand reg [] env with
  | mk r1 env1 =>
    simp only [h1] at h
    cases r1 with
    | error e1 =>
      have h2 := congrArg Prod.fst h
      simp at h2
      exact h2 ▸ expandedMapLoop1_error_shape expand reg [] env e1 env1 h1
    | ok seen =>
      cases h2 : expandedMapLoop2 expand seen env1 with
      | mk r2 env2 =>
        simp only [h2] at h
        cases r2 with
        | error e2 =>
          have h3 := congrArg Prod.fst h
          simp at h3
          exact h3 ▸ expandedMapLoop2_error_shape expand seen env1 e2 env2 h2
        | ok u => simp at h

/-- On success, the first expansion loop has written a value for every
declaration carrying a default. -/
theorem expandedMapLoop1_sets (expand : Expander) :
    ∀ (l : List RequiredVar) (seen : List (String × String)) (env : EnvMap)
      (seen' : List (String × String)) (env' : EnvMap),
      expandedMapLoop1 expand l seen env = (.ok seen', env') →
      (∀ p ∈ seen, (env p.1).isSome = true) →
      ∀ var ∈ l, var.default.isSome = true → (env' var.name).isSome = true := by
  intro l
  induction l with
  | nil =>
    intro seen env seen' env' h hinv var hv
    exact absurd hv (List.not_mem_nil _)
  | cons var0 rest ih =>
    intro seen env seen' env' h hinv var hv hd
    by_cases hseen : (List.lookup var0.name seen).isSome = true
    · rw [expandedMapLoop1_cons_seen expand var0 rest seen env hseen] at h
      rcases List.mem_cons.mp hv with hv0 | hvr
      · subst hv0
        obtain ⟨w, hw⟩ := lookup_isSome_exists_mem seen var.name hseen
        have henv : (env var.name).isSome = true := hinv _ hw
        have hm := expandedMapLoop1_mono expand rest seen env var.name henv
        rw [h] at hm
        exact hm
      · exact ih seen env seen' env' h hinv var hvr hd
    · cases hg : var0.get env with
      | none =>
        rw [expandedMapLoop1_cons_skip expand var0 rest seen env hseen hg] at h
        rcases List.mem_cons.mp hv with hv0 | hvr
        · subst hv0
          rw [RequiredVar.get_none hg] at hd
          cases hd
        · exact ih seen env seen' env' h hinv var hvr hd
      | some value =>
        cases hex : expand env value with
        | error e =>
          rw [expandedMapLoop1_cons_err expand var0 rest seen env value e hseen hg hex] at h
          have h1 := congrArg Prod.fst h
          simp at h1
        | ok value2 =>
          rw [expandedMapLoop1_cons_ok expand var0 rest seen env value value2 hseen hg hex] at h
          have hinv' : ∀ p ∈ seen ++ [(var0.name, value2)],
              ((setVar env var0.name value2) p.1).isSome = true := by
            intro p hp
            rcases List.mem_append.mp hp with hp1 | hp2
            · exact setVar_mono _ _ _ _ (hinv p hp1)
            · simp at hp2
              rw [hp2]
              simp
          rcases List.mem_cons.mp hv with hv0 | hvr
          · subst hv0
            have henv : ((setVar env var.name value2) var.name).isSome = true := by
              simp
            have hm := expandedMapLoop1_mono expand rest
              (seen ++ [(var.name, value2)]) (setVar env var.name value2)
              var.name henv
            rw [h] at hm
            exact hm
          · exact ih _ _ _ _ h hinv' var hvr hd

/-- The first expansion loop preserves a set value that expands to itself,
and records only that value for its name. -/
theorem expandedMapLoop1_fix (expand : Expander) (n v : String)
    (hfix : ∀ e, expand e v = .ok v) :
    ∀ (l : List RequiredVar) (seen : List (String × String)) (env : EnvMap),
      env n = some v →
      (∀ p ∈ seen, p.1 = n → p.2 = v) →
      ((expandedMapLoop1 expand l seen env).2 n = some v ∧
       ∀ r, (expandedMapLoop1 expand l seen env).1 = .ok r →
         ∀ p ∈ r, p.1 = n → p.2 = v) := by
  intro l
  induction l with
  | nil =>
    intro seen env henv hinv
    refine ⟨henv, fun r hr => ?_⟩
    injection hr with hr1
    exact hr1 ▸ hinv
  | cons var0 rest ih =>
    intro seen env henv hinv
    by_cases hseen : (List.lookup var0.name seen).isSome = true
    · rw [expandedMapLoop1_cons_seen expand var0 rest seen env hseen]
      exact ih seen env henv hinv
    · cases hg : var0.get env with
      | none =>
        rw [expandedMapLoop1_cons_skip expand var0 rest seen env hseen hg]
        exact ih seen env henv hinv
      | some value =>
        by_cases hn0 : var0.name = n
        · have hval : value = v := by
            unfold RequiredVar.get at hg
            rw [hn0, henv] at hg
            injection hg with h1
            exact h1.symm
          subst hval
          rw [expandedMapLoop1_cons_ok expand var0 rest seen env value value
            hseen hg (hfix env)]
          refine ih (seen ++ [(var0.name, value)]) (setVar env var0.name value)
            ?_ ?_
          · rw [hn0]; simp
          · intro p hp hp1
            rcases List.mem_append.mp hp with hp2 | hp3
            · exact hinv p hp2 hp1
            · simp at hp3
              rw [hp3]
        · cases hex : expand env value with
          | error e =>
            rw [expandedMapLoop1_cons_err expand var0 rest seen env value e
              hseen hg hex]
            exact ⟨henv, fun r hr => by cases hr⟩
          | ok value2 =>
            rw [expandedMapLoop1_cons_ok expand var0 rest seen env value value2
              hseen hg hex]
            refine ih (seen ++ [(var0.name, value2)])
              (setVar env var0.name value2) ?_ ?_
            · rw [setVar_other env var0.name value2 n (fun h => hn0 h.symm)]
              exact henv
            · intro p hp hp1
              rcases List.mem_append.mp hp with hp2 | hp3
              · exact hinv p hp2 hp1
              · simp at hp3
                rw [hp3] at hp1
                exact absurd hp1 hn0

/-- The second expansion loop preserves a set value that expands to itself,
provided all recorded entries for that name carry that value. -/
theorem expandedMapLoop2_fix (expand : Expander) (n v : String)
    (hfix : ∀ e, expand e v = .ok v) :
    ∀ (seen : List (String × String)) (env : EnvMap),
      env n = some v →
      (∀ p ∈ seen, p.1 = n → p.2 = v) →
      (expandedMapLoop2 expand seen env).2 n = some v := by
  intro seen
  induction seen with
  | nil => intro env henv hinv; exact henv
  | cons p rest ih =>
    obtain ⟨k, w⟩ := p
    intro env henv hinv
    by_cases hk : k = n
    · have hw : w = v := hinv (k, w) (List.mem_cons_self _ _) hk
      subst hw
      subst hk
      rw [expandedMapLoop2_cons_ok expand k w w rest env (hfix env)]
      exact ih (setVar env k w) (by simp)
        (fun p hp => hinv p (List.mem_cons_of_mem _ hp))
    · cases hex : expand env w with
      | error e =>
        rw [expandedMapLoop2_cons_err expand k w rest env e hex]
        exact henv
      | ok w2 =>
        rw [expandedMapLoop2_cons_ok expand k w w2 rest env hex]
        exact ih (setVar env k w2)
          (by rw [setVar_other env k w2 n (fun h => hk h.symm)]; exact henv)
          (fun p hp => hinv p (List.mem_cons_of_mem _ hp))

/-- `expanded_map` preserves a set value that expands to itself, on every
result path. -/
theorem expanded_map_fix (expand : Expander) (reg : List RequiredVar)
    (env : EnvMap) (n v : String) (hfix : ∀ e, expand e v = .ok v)
    (henv : env n = some v) :
    (expanded_map expand reg env).2 n = some v := by
  have hfx := expandedMapLoop1_fix expand n v hfix reg [] env henv
    (by intro p hp _; exact absurd hp (List.not_mem_nil _))
  cases h1 : expandedMapLoop1 expand reg [] env with
  | mk r1 env1 =>
    rw [h1] at hfx
    cases r1 with
    | error e =>
      rw [expanded_map_unfold_err1 expand reg env e env1 h1]
      exact hfx.1
    | ok seen =>
      have hinv := hfx.2 seen rfl
      have hfx2 := expandedMapLoop2_fix expand n v hfix seen env1 hfx.1 hinv
      cases h2 : expandedMapLoop2 expand seen env1 with
      | mk r2 env2 =>
        rw [h2] at hfx2
        cases r2 with
        | error e =>
          rw [expanded_map_unfold_err2 expand reg env seen env1 e env2 h1 h2]
          exact hfx2
        | ok u =>
          rw [expanded_map_unfold_ok expand reg env seen env1 u env2 h1 h2]
          exact hfx2

/-- On success, `expanded_map` leaves set every name that was set or carried
a default in some declaration. -/
theorem expanded_map_ok_sets (expand : Expander) (reg : List RequiredVar)
    (env : EnvMap) (seen : List (String × String)) (env2 : EnvMap)
    (h : expanded_map expand reg env = (.ok seen, env2)) :
    ∀ var ∈ reg, (var.default.isSome = true ∨ (env var.name).isSome = true) →
      (env2 var.name).isSome = true := by
  cases h1 : expandedMapLoop1 expand reg [] env with
  | mk r1 env1 =>
    cases r1 with
    | error e =>
      rw [expanded_map_unfold_err1 expand reg env e env1 h1] at h
      simp at h
    | ok seen1 =>
      cases h2 : expandedMapLoop2 expand seen1 env1 with
      | mk r2 env2' =>
        cases r2 with
        | error e2 =>
          rw [expanded_map_unfold_err2 expand reg env seen1 env1 e2 env2' h1 h2] at h
          simp at h
        | ok u =>
          rw [expanded_map_unfold_ok expand reg env seen1 env1 u env2' h1 h2] at h
          have henv2 : env2' = env2 := congrArg Prod.snd h
          subst henv2
          intro var hvar hcase
          have henv1 : (env1 var.name).isSome = true := by
            rcases hcase with hd | hs
            · exact expandedMapLoop1_sets expand reg [] env seen1 env1 h1
                (by intro p hp; exact absurd hp (List.not_mem_nil _)) var hvar hd
            · have hm := expandedMapLoop1_mono expand reg [] env var.name hs
              rw [h1] at hm
              exact hm
          have hm2 := expandedMapLoop2_mono expand seen1 env1 var.name henv1
          rw [h2] at hm2
          exact hm2

/-- Unfolding: the merge phase failed (mandatory first document). -/
theorem load_and_validate_unfold_err_merge (fsys : FileSys) (expand : Expander)
    (reg : List RequiredVar) (paths : List String) (sect : String)
    (env : EnvMap) (e : EnvInventoryError)
    (h : mergeSettings fsys sect paths = .error e) :
    load_and_validate_env_vars fsys expand reg paths sect env = (.error e, env) := by
  unfold load_and_validate_env_vars
  simp only [h]

/-- Unfolding: the merge succeeded but the expansion phase failed. -/
theorem load_and_validate_unfold_err_expand (fsys : FileSys) (expand : Expander)
    (reg : List RequiredVar) (paths : List String) (sect : String)
    (env : EnvMap) (merged : SMap) (e : EnvInventoryError) (env2 : EnvMap)
    (hm : mergeSettings fsys sect paths = .ok merged)
    (hx : expanded_map expand reg (resolveLoop reg merged reg env) =
      (.error e, env2)) :
    load_and_validate_env_vars fsys expand reg paths sect env = (.error e, env2) := by
  unfold load_and_validate_env_vars
  simp only [hm, hx]

/-- Unfolding: merge and expansion both succeeded; the call ends in
validation against the expanded environment. -/
theorem load_and_validate_unfold_ok (fsys : FileSys) (expand : Expander)
    (reg : List RequiredVar) (paths : List String) (sect : String)
    (env : EnvMap) (merged : SMap) (seen : List (String × String)) (env2 : EnvMap)
    (hm : mergeSettings fsys sect paths = .ok merged)
    (hx : expanded_map expand reg (resolveLoop reg merged reg env) =
      (.ok seen, env2)) :
    load_and_validate_env_vars fsys expand reg paths sect env =
      (validate_env_vars reg env2, env2) := by
  unfold load_and_validate_env_vars
  simp only [hm, hx]

/-! ## Claim theorems -/

/-- C1, counterexample.  The claim's precedence rule would write `"a"`, the
default of the last *Binary declaration carrying a default* for `X`, but the
resolution loop inspects only the very last Binary declaration, finds no
default there, and leaves `X` unset. -/
theorem c1_counterexample :
    resolveLoop c1Reg emptySMap c1Reg emptyEnv "X" = none ∧
    claimResolvedValue c1Reg emptySMap emptyEnv "X" = some "a" := by
  constructor <;> decide

/-- C1, amended.  For every declared name the resolution phase of
`load_and_validate_env_vars` applies this precedence: an already-set
environment value is left untouched; otherwise a merged-settings value is
written; otherwise the default of the *last-registered Binary declaration*
for the name is written when that declaration has one; otherwise the default
of the *last-registered Library declaration* is written when that declaration
has one; otherwise the name stays unset.  (Unlike the original claim, when
the last declaration of a tier lacks a default, earlier declarations of that
tier are not consulted; resolution falls through to the next rule.) -/
theorem c1_amended_resolution_precedence (reg : List RequiredVar)
    (merged : SMap) (env : EnvMap) (n : String)
    (h : n ∈ reg.map RequiredVar.name) :
    resolveLoop reg merged reg env n =
      match env n with
      | some v => some v
      | none =>
        match merged n with
        | some v => some v
        | none =>
          match lastPriorityDefault reg n .Binary with
          | some d => some d
          | none => lastPriorityDefault reg n .Library := by
  rw [resolveLoop_lookup]
  cases henv : env n with
  | some v => rfl
  | none =>
    have hany : reg.any (fun v => v.name == n) = true := by
      rw [List.any_eq_true]
      obtain ⟨var, hvar, hname⟩ := List.mem_map.mp h
      exact ⟨var, hvar, by simp [hname]⟩
    rw [if_pos hany]
    rfl

/-- Closed instance of `c1_amended_resolution_precedence`: the spec scenario
`register("X","lib",Library); register("X","bin",Binary)` resolves to
`"bin"`. -/
theorem c1_amended_witness :
    resolveLoop c1RegW emptySMap c1RegW emptyEnv "X" = some "bin" := by
  rw [c1_amended_resolution_precedence c1RegW emptySMap emptyEnv "X" (by decide)]
  decide

/-- C2.  If `load_and_validate_env_vars` returns success, every name that
appears in some declaration of the registry is set in the live environment
after the call. -/
theorem c2_success_implies_all_set (fsys : FileSys) (expand : Expander)
    (reg : List RequiredVar) (paths : List String) (sect : String)
    (env : EnvMap)
    (h : (load_and_validate_env_vars fsys expand reg paths sect env).1 = .ok ()) :
    ∀ var ∈ reg,
      (((load_and_validate_env_vars fsys expand reg paths sect env).2)
        var.name).isSome = true := by
  cases hm : mergeSettings fsys sect paths with
  | error e =>
    rw [load_and_validate_unfold_err_merge fsys expand reg paths sect env e hm] at h
    simp at h
  | ok merged =>
    cases hx : expanded_map expand reg (resolveLoop reg merged reg env) with
    | mk r2 env2 =>
      cases r2 with
      | error e =>
        rw [load_and_validate_unfold_err_expand fsys expand reg paths sect env
          merged e env2 hm hx] at h
        simp at h
      | ok seen =>
        rw [load_and_validate_unfold_ok fsys expand reg paths sect env
          merged seen env2 hm hx] at h ⊢
        intro var hvar
        have hv : validate_env_vars reg env2 = .ok () := h
        have hsat := (validate_ok_iff reg env2).mp hv var hvar
        simp only [RequiredVar.is_set, Bool.or_eq_true] at hsat
        rcases hsat with hes | hds
        · exact hes
        · exact expanded_map_ok_sets expand reg (resolveLoop reg merged reg env)
            seen env2 hx var hvar (Or.inl hds)

/-- Closed instance of `c2_success_implies_all_set`: the spec scenario
`register("PORT","8080",Library)` with no documents succeeds and leaves
`PORT` set. -/
theorem c2_witness :
    ((load_and_validate_env_vars noFile idExpand c2Reg [] "env" emptyEnv).2
      "PORT").isSome = true :=
  c2_success_implies_all_set noFile idExpand c2Reg [] "env" emptyEnv (by rfl)
    ⟨"PORT", some "8080", none, "s", .Library⟩ (by decide)

/-- C3, counterexample.  At a registry holding two declarations for `X`, one
without a default and one with, the claim's per-name rule is satisfied (some
declaration for `X` has a default), but `validate_env_vars` checks each
declaration against its *own* default and reports `X` missing. -/
theorem c3_counterexample :
    claimValidate c3Reg emptyEnv = .ok () ∧
    validate_env_vars c3Reg emptyEnv =
      .error (.MissingEnvVars ["X=(missing)"]) := by
  constructor <;> rfl

/-- C3, amended.  `validate_env_vars` treats each *declaration* (not each
distinct name) as satisfied exactly when the environment holds a value for
its name or the declaration's *own* default is present; it returns Ok when
all declarations are satisfied, and otherwise the deduplicated,
lexicographically sorted list of the per-declaration `"name=hint"` messages
of the unsatisfied declarations, where the hint is that declaration's own
error hint or `"(missing)"` (so one name can appear several times under
different hints). -/
theorem c3_amended_validate_characterisation (reg : List RequiredVar)
    (env : EnvMap) :
    (validate_env_vars reg env = .ok () ↔
      ∀ var ∈ reg, ((env var.name).isSome = true ∨ var.default.isSome = true)) ∧
    (∀ msgs, validate_env_vars reg env = .error (.MissingEnvVars msgs) →
      msgs.Sorted (· ≤ ·) ∧ msgs.Nodup ∧
      ∀ m, (m ∈ msgs ↔
        ∃ var ∈ reg, var.is_set env = false ∧ m = missingMsg var)) := by
  constructor
  · rw [validate_ok_iff]
    constructor
    · intro hall var hvar
      have h1 := hall var hvar
      simp only [RequiredVar.is_set, Bool.or_eq_true] at h1
      exact h1
    · intro hall var hvar
      simp only [RequiredVar.is_set, Bool.or_eq_true]
      exact hall var hvar
  · intro msgs hmsg
    have heq := validate_error_eq reg env msgs hmsg
    subst heq
    refine ⟨sortStr_sorted _, ?_, ?_⟩
    · exact ((sortStr_perm _).nodup_iff).mpr (List.nodup_dedup _)
    · intro m
      rw [(sortStr_perm _).mem_iff, List.mem_dedup, List.mem_filterMap]
      constructor
      · rintro ⟨var, hvar, hf⟩
        by_cases hset : var.is_set env = true
        · rw [if_pos hset] at hf
          cases hf
        · rw [if_neg hset] at hf
          injection hf with hf1
          exact ⟨var, hvar, Bool.eq_false_iff.mpr hset, hf1.symm⟩
      · rintro ⟨var, hvar, hset, hm⟩
        refine ⟨var, hvar, ?_⟩
        rw [if_neg (by rw [hset]; simp), hm]

/-- Closed instance of `c3_amended_validate_characterisation`: a registry of
one defaulted declaration validates successfully against the empty
environment. -/
theorem c3_witness : validate_env_vars c3RegW emptyEnv = .ok () :=
  (c3_amended_validate_characterisation c3RegW emptyEnv).1.mpr (by decide)

/-- C4.  The first settings path is mandatory: its load error (read or parse)
makes the whole call return that error with the environment untouched.  Every
later path is optional: when its load fails, that document contributes
nothing and the call behaves exactly as if the path were absent from the
list. -/
theorem c4_mandatory_first_optional_rest (fsys : FileSys) (sect p : String)
    (e : EnvInventoryError) (hp : load_toml_settings fsys p sect = .error e) :
    (∀ (expand : Expander) (reg : List RequiredVar) (rest : List String)
      (env : EnvMap),
      load_and_validate_env_vars fsys expand reg (p :: rest) sect env =
        (.error e, env)) ∧
    (∀ (expand : Expander) (reg : List RequiredVar) (p0 : String)
      (l1 l2 : List String) (env : EnvMap),
      load_and_validate_env_vars fsys expand reg (p0 :: (l1 ++ p :: l2)) sect env =
        load_and_validate_env_vars fsys expand reg (p0 :: (l1 ++ l2)) sect env) := by
  constructor
  · intro expand reg rest env
    have hm : mergeSettings fsys sect (p :: rest) = .error e := by
      rw [mergeSettings]
      simp only [hp]
    exact load_and_validate_unfold_err_merge fsys expand reg (p :: rest) sect
      env e hm
  · intro expand reg p0 l1 l2 env
    have haux : ∀ acc, mergeSettingsAux fsys sect (l1 ++ p :: l2) acc =
        mergeSettingsAux fsys sect (l1 ++ l2) acc := by
      intro acc
      induction l1 generalizing acc with
      | nil =>
        rw [List.nil_append, List.nil_append, mergeSettingsAux]
        simp only [hp]
      | cons q qs ih =>
        rw [List.cons_append, List.cons_append, mergeSettingsAux,
          mergeSettingsAux]
        cases hq : load_toml_settings fsys q sect with
        | ok s =>
          simp only [hq]
          exact ih _
        | error e0 =>
          simp only [hq]
          exact ih _
    have hm : mergeSettings fsys sect (p0 :: (l1 ++ p :: l2)) =
        mergeSettings fsys sect (p0 :: (l1 ++ l2)) := by
      rw [mergeSettings, mergeSettings]
      cases hq : load_toml_settings fsys p0 sect with
      | ok s =>
        simp only [hq]
        rw [haux]
      | error e0 =>
        simp only [hq]
    unfold load_and_validate_env_vars
    rw [hm]

/-- Closed instance of `c4_mandatory_first_optional_rest`: an unreadable
mandatory first document aborts the call with its `ReadFileError` and leaves
the environment unchanged. -/
theorem c4_witness :
    load_and_validate_env_vars c4Fs idExpand ([] : List RequiredVar)
      ["bad"] "env" emptyEnv = (.error (.ReadFileError "bad"), emptyEnv) :=
  (c4_mandatory_first_optional_rest c4Fs "env" "bad" (.ReadFileError "bad")
    (by rfl)).1 idExpand [] [] emptyEnv

/-- Helper for C5: a block of paths none of which successfully contributes
the key resolves to nothing for that key. -/
theorem lastWinsLookup_none (fsys : FileSys) (sect k : String) :
    ∀ (l : List String),
      (∀ q ∈ l, ∀ s2, load_toml_settings fsys q sect = .ok s2 → s2 k = none) →
      lastWinsLookup fsys sect l k = none := by
  intro l
  induction l with
  | nil => intro _; rfl
  | cons q qs ih =>
    intro hall
    rw [lastWinsLookup, ih (fun q2 hq2 => hall q2 (List.mem_cons_of_mem _ hq2))]
    cases hq : load_toml_settings fsys q sect with
    | ok s2 =>
      simp only [hq]
      exact hall q (List.mem_cons_self _ _) s2 hq
    | error e =>
      simp only [hq]

/-- Helper for C5: a successful merge denotes, pointwise, the last-wins
lookup over the path list. -/
theorem mergeSettings_ok_lookup (fsys : FileSys) (sect : String)
    (paths : List String) (m : SMap)
    (h : mergeSettings fsys sect paths = .ok m) (k : String) :
    m k = lastWinsLookup fsys sect paths k := by
  cases paths with
  | nil =>
    injection h with h1
    rw [← h1]
    rfl
  | cons p0 rest =>
    rw [mergeSettings] at h
    cases hq : load_toml_settings fsys p0 sect with
    | error e =>
      simp only [hq] at h
      cases h
    | ok s =>
      simp only [hq] at h
      injection h with h1
      rw [← h1, mergeSettingsAux_lookup, lastWinsLookup]
      cases lastWinsLookup fsys sect rest k with
      | some v => rfl
      | none =>
        simp only [hq]
        show overrideMap emptySMap s k = s k
        unfold overrideMap
        cases s k <;> rfl

/-- C5.  When the merge succeeds, every key defined by several successfully
loaded documents resolves to the value from the document that appears last
in the caller-supplied path list among those defining it. -/
theorem c5_last_document_wins (fsys : FileSys) (sect : String)
    (l1 : List String) (p : String) (l2 : List String) (k v : String)
    (m s : SMap)
    (hm : mergeSettings fsys sect (l1 ++ p :: l2) = .ok m)
    (hp : load_toml_settings fsys p sect = .ok s)
    (hv : s k = some v)
    (hlater : ∀ q ∈ l2, ∀ s2,
      load_toml_settings fsys q sect = .ok s2 → s2 k = none) :
    m k = some v := by
  have h1 : lastWinsLookup fsys sect (p :: l2) k = some v := by
    rw [lastWinsLookup, lastWinsLookup_none fsys sect k l2 hlater]
    simp only [hp]
    exact hv
  rw [mergeSettings_ok_lookup fsys sect _ m hm k, lastWinsLookup_append, h1]

/-- Closed instance of `c5_last_document_wins`: the spec scenario of two
documents `[A, B]` both defining `KEY` (values `"a"` and `"b"`) merges to
`"b"`. -/
theorem c5_witness : c5Merged "KEY" = some "b" :=
  c5_last_document_wins c5Fs "env" ["A"] "B" [] "KEY" "b" c5Merged c5DocB
    (by rfl) (by rfl) (by rfl) (by simp)

/-- C6, counterexample.  A pre-set environment value containing expansion
syntax is *not* left untouched by the whole call: the expansion phase
rewrites `X` from `"${Y}"` to `"z"`. -/
theorem c6_counterexample :
    (load_and_validate_env_vars noFile c6Expand c6Reg [] "env" c6Env).2 "X" ≠
      c6Env "X" ∧
    c6Env "X" = some "${Y}" := by
  constructor
  · decide
  · rfl

/-- C6, amended.  A name already set in the live environment wins over
document settings and all declared defaults: the resolution loop leaves it
exactly as it was, unconditionally.  Over the whole call, the stored value is
unchanged *whenever* its shell expansion is the value itself (in particular
whenever it contains no expansion syntax); a pre-set value whose expansion
differs may instead be rewritten to that expansion, as the counterexample
shows. -/
theorem c6_amended_env_wins_up_to_expansion (fsys : FileSys)
    (expand : Expander) (reg : List RequiredVar) (paths : List String)
    (sect : String) (env : EnvMap) (n v : String)
    (hv : env n = some v) :
    (∀ (merged : SMap) (l : List RequiredVar),
      resolveLoop reg merged l env n = some v) ∧
    ((∀ e, expand e v = .ok v) →
      (load_and_validate_env_vars fsys expand reg paths sect env).2 n = some v) := by
  have hres : ∀ (merged : SMap) (l : List RequiredVar),
      resolveLoop reg merged l env n = some v := by
    intro merged l
    rw [resolveLoop_lookup, hv]
  refine ⟨hres, ?_⟩
  intro hfix
  cases hm : mergeSettings fsys sect paths with
  | error e =>
    rw [load_and_validate_unfold_err_merge fsys expand reg paths sect env e hm]
    exact hv
  | ok merged =>
    have henv1 : resolveLoop reg merged reg env n = some v := hres merged reg
    have hexp := expanded_map_fix expand reg (resolveLoop reg merged reg env)
      n v hfix henv1
    cases hx : expanded_map expand reg (resolveLoop reg merged reg env) with
    | mk r2 env2 =>
      rw [hx] at hexp
      cases r2 with
      | error e =>
        rw [load_and_validate_unfold_err_expand fsys expand reg paths sect env
          merged e env2 hm hx]
        exact hexp
      | ok seen =>
        rw [load_and_validate_unfold_ok fsys expand reg paths sect env
          merged seen env2 hm hx]
        exact hexp

/-- Closed instance of `c6_amended_env_wins_up_to_expansion`: the spec
scenario — `KEY` pre-set to `"env-value"` while a document defines
`KEY="doc-value"` — resolves to `"env-value"`. -/
theorem c6_witness :
    (load_and_validate_env_vars c6FsW idExpand c6RegW ["D"] "env" c6EnvW).2
      "KEY" = some "env-value" :=
  (c6_amended_env_wins_up_to_expansion c6FsW idExpand c6RegW ["D"] "env"
    c6EnvW "KEY" "env-value" rfl).2 (fun _ => rfl)

/-- C7.  Loading one settings document fails with `ReadFileError` when the
path cannot be read and `ParseFileError` when it does not parse; a parsed
document without the named section yields the empty mapping (not an error);
and a parsed document whose section is a table yields exactly its
string-valued entries, with non-string entries silently dropped. -/
theorem c7_load_toml_settings_cases (fsys : FileSys) (p sect : String) :
    (fsys p = .unreadable →
      load_toml_settings fsys p sect = .error (.ReadFileError p)) ∧
    (fsys p = .unparsable →
      load_toml_settings fsys p sect = .error (.ParseFileError p)) ∧
    (∀ doc, fsys p = .parsed doc → doc.lookup sect = none →
      load_toml_settings fsys p sect = .ok emptySMap) ∧
    (∀ doc tbl, fsys p = .parsed doc →
      (doc.lookup sect).bind Toml.as_table = some tbl →
      ∃ m, load_toml_settings fsys p sect = .ok m ∧
        ∀ k, m k = tableStrLookup tbl k) := by
  refine ⟨?_, ?_, ?_, ?_⟩
  · intro h
    rw [load_toml_settings]
    simp only [h]
  · intro h
    rw [load_toml_settings]
    simp only [h]
  · intro doc h hsect
    rw [load_toml_settings]
    simp only [h, hsect, Option.none_bind]
  · intro doc tbl h hsect
    refine ⟨tbl.foldl (fun settings kv =>
      match kv.2.as_str with
      | some val_str => setVar settings kv.1 val_str
      | none => settings) emptySMap, ?_, ?_⟩
    · rw [load_toml_settings]
      simp only [h, hsect]
    · intro k
      rw [tomlFold_lookup]
      cases tableStrLookup tbl k <;> rfl

/-- Closed instance of `c7_load_toml_settings_cases`: an unreadable path
yields `ReadFileError` with that path. -/
theorem c7_witness :
    load_toml_settings noFile "conf" "env" = .error (.ReadFileError "conf") :=
  (c7_load_toml_settings_cases noFile "conf" "env").1 rfl

/-- C8.  After merging and resolution, `load_and_validate_env_vars`
shell-expands the value of every registered variable that has one and writes
the result back, *before* validation: an expansion failure makes the call
return a `MissingEnvVar` error — a variant outside the documented
`ReadFileError`/`ParseFileError`/`MissingEnvVars` taxonomy — without running
validation; on expansion success every variable that had a value after
resolution is set in the final environment and validation runs against that
expanded environment. -/
theorem c8_expansion_before_validation (fsys : FileSys) (expand : Expander)
    (reg : List RequiredVar) (paths : List String) (sect : String)
    (env : EnvMap) (merged : SMap)
    (hm : mergeSettings fsys sect paths = .ok merged) :
    (∀ e env2,
      expanded_map expand reg (resolveLoop reg merged reg env) =
        (.error e, env2) →
      load_and_validate_env_vars fsys expand reg paths sect env =
        (.error e, env2) ∧
      ∃ msg, e = .MissingEnvVar msg) ∧
    (∀ seen env2,
      expanded_map expand reg (resolveLoop reg merged reg env) =
        (.ok seen, env2) →
      load_and_validate_env_vars fsys expand reg paths sect env =
        (validate_env_vars reg env2, env2) ∧
      ∀ var ∈ reg, (var.get (resolveLoop reg merged reg env)).isSome = true →
        (env2 var.name).isSome = true) := by
  constructor
  · intro e env2 hx
    exact ⟨load_and_validate_unfold_err_expand fsys expand reg paths sect env
        merged e env2 hm hx,
      expanded_map_error_shape expand reg _ e env2 hx⟩
  · intro seen env2 hx
    refine ⟨load_and_validate_unfold_ok fsys expand reg paths sect env
      merged seen env2 hm hx, ?_⟩
    intro var hvar hg
    apply expanded_map_ok_sets expand reg _ seen env2 hx var hvar
    cases he : (resolveLoop reg merged reg env) var.name with
    | some u =>
      exact Or.inr rfl
    | none =>
      refine Or.inl ?_
      unfold RequiredVar.get at hg
      simp only [he] at hg
      exact hg

/-- Closed instance of `c8_expansion_before_validation`: `X` pre-set to
`"${Z}"` with `Z` undefined makes the call fail with
`MissingEnvVar "Z"` before any validation. -/
theorem c8_witness :
    load_and_validate_env_vars noFile c8Expand c8Reg [] "env" c8Env =
      (.error (.MissingEnvVar "Z"), c8EnvMid) :=
  ((c8_expansion_before_validation noFile c8Expand c8Reg [] "env" c8Env
    emptySMap (by rfl)).1 (.MissingEnvVar "Z") c8EnvMid (by rfl)).1

/-- C9, counterexample.  At a one-declaration registry the claim predicts
the sorted name list `["X"]`, but `list_all_vars` returns the full `Debug`
rendering of the declaration instead. -/
theorem c9_counterexample :
    sortStr (c9Reg.map RequiredVar.name) = ["X"] ∧
    list_all_vars c9Reg ≠ ["X"] := by
  constructor <;> decide

/-- C9, amended.  `list_all_vars` returns the lexicographically sorted list
of the `Debug` renderings of all declarations — one entry per declaration
(not per distinct name), each carrying the full rendering rather than the
bare name; being a pure function of the registry, it neither reads nor
mutates the live environment. -/
theorem c9_amended_listing_sorted_debug (reg : List RequiredVar) :
    (list_all_vars reg).Sorted (· ≤ ·) ∧
    List.Perm (list_all_vars reg) (reg.map RequiredVar.debugFmt) :=
  ⟨sortStr_sorted _, sortStr_perm _⟩

/-- C10.  `validate_env_vars` is idempotent: the source performs no
environment write, so the call leaves the state unchanged, and a second call
against the state left by the first returns the identical result and
state. -/
theorem c10_validate_idempotent (reg : List RequiredVar) (env : EnvMap) :
    validate_env_vars_run reg (validate_env_vars_run reg env).2 =
      validate_env_vars_run reg env := rfl

end EnvInventory
